import Mathlib

/-!
Verification of the harvesting pipeline of `tools/scopus_fetcher.py`
(credential parsing, paginated search, detail enrichment, metrics
resolution, normalization, category filtering, per-author orchestration).

Python strings are embedded as `List Char`; JSON objects coming back from
the network are embedded as structures whose fields are `Option (List Char)`
(`none` = key absent or null).  Fallible Python code (`int(...)`, uncaught
exceptions) is embedded in `Except`.  Network calls are modelled by passing
the response (or a failure marker) as an explicit argument.
-/

namespace Scopus

abbrev Str := List Char

/-- ASCII whitespace, as stripped by Python `str.strip()` and matched by `\s`. -/
def isSpaceC (c : Char) : Bool :=
  c.toNat == 32 || c.toNat == 9 || c.toNat == 10 || c.toNat == 13 ||
  c.toNat == 11 || c.toNat == 12

/-- Characters of the separator class `[,\s]` used by `re.split` in `_parse_api_keys`. -/
def isSepC (c : Char) : Bool := c.toNat == 44 || isSpaceC c

/-- The bracket characters stripped by `.strip("[](){}")`. -/
def isBracketC (c : Char) : Bool :=
  c.toNat == 91 || c.toNat == 93 || c.toNat == 40 || c.toNat == 41 ||
  c.toNat == 123 || c.toNat == 125

/-- Python `str.strip(chars)`: remove characters satisfying `p` from both ends. -/
def stripEnds (p : Char → Bool) (l : Str) : Str :=
  ((l.dropWhile p).reverse.dropWhile p).reverse

/-- ASCII decimal digit (`str.isdigit` on the strings this program handles). -/
def isDigitC (c : Char) : Bool := 48 ≤ c.toNat && c.toNat ≤ 57

/-- Hexadecimal digit, both cases (`[0-9a-fA-F]`). -/
def isHexDigitC (c : Char) : Bool :=
  (48 ≤ c.toNat && c.toNat ≤ 57) || (97 ≤ c.toNat && c.toNat ≤ 102) ||
  (65 ≤ c.toNat && c.toNat ≤ 70)

/-- `re.fullmatch(r"[0-9a-fA-F]{32}", k)` -/
def isHex32 (s : Str) : Bool := s.length == 32 && s.all isHexDigitC

/-- Python `str.lower()` restricted to the ASCII range handled by this program. -/
def toLowerC (c : Char) : Char :=
  if 65 ≤ c.toNat && c.toNat ≤ 90 then Char.ofNat (c.toNat + 32) else c

def toLowerStr (s : Str) : Str := s.map toLowerC

mutual

/-- `re.split(r"[,\s]+", s)`: accumulate the current fragment (reversed) in `acc`;
on a separator, emit it and skip the rest of the separator run. -/
def splitSepAux : Str → Str → List Str
  | [], acc => [acc.reverse]
  | c :: cs, acc =>
    if isSepC c then acc.reverse :: splitSepSkip cs else splitSepAux cs (c :: acc)

/-- Skip the remainder of a separator run, then resume fragment accumulation.
An exhausted input after a separator yields the trailing empty fragment,
exactly as `re.split` does. -/
def splitSepSkip : Str → List Str
  | [] => [[]]
  | c :: cs => if isSepC c then splitSepSkip cs else splitSepAux cs [c]

end

def splitSep (l : Str) : List Str := splitSepAux l []

/-- Per-fragment cleanup in `_parse_api_keys`: `p.strip().strip("'").strip('"')`. -/
def stripPart (p : Str) : Str :=
  stripEnds (fun c => c.toNat == 34)
    (stripEnds (fun c => c.toNat == 39) (stripEnds isSpaceC p))

/-- `_parse_api_keys(envval)`: tolerant credential parser.  Empty input gives an
empty pool; otherwise the whole string is stripped of whitespace and then of
surrounding brackets, split on comma/whitespace runs, each fragment is stripped
of whitespace/apostrophes/double-quotes, and only 32-hex fragments survive,
lower-cased, in order. -/
def parse_api_keys (envval : Str) : List Str :=
  if envval.isEmpty then []
  else
    let cleaned := stripEnds isBracketC (stripEnds isSpaceC envval)
    (splitSep cleaned).filterMap (fun p =>
      let k := stripPart p
      if isHex32 k then some (toLowerStr k) else none)

/-- The module-level startup check: `API_KEYS = _parse_api_keys(...)`, followed by
`raise SystemExit(...)` when the pool is empty.  This happens at import time,
before any network request. -/
def loadApiKeys (envval : Str) : Except Str (List Str) :=
  let ks := parse_api_keys envval
  if ks.isEmpty then .error "Set SCOPUS_API_KEYS=key1,key2 (comma-separated, no quotes).".data
  else .ok ks

def isOkE {ε α : Type} : Except ε α → Bool
  | .ok _ => true
  | .error _ => false

/-- Concatenation of a head token and alternating (separator, token) pairs;
the shape of a delimited credential string. -/
def joinDec (t0 : Str) (rest : List (Str × Str)) : Str :=
  t0 ++ rest.foldr (fun q acc => q.1 ++ q.2 ++ acc) []

/-! ### Small Python value helpers -/

/-- Python `a or b` for an optional string `a` and a string default `b`:
`None` and the empty string are falsy. -/
def pyOrS (a : Option Str) (b : Str) : Str :=
  match a with
  | some s => if s.isEmpty then b else s
  | none => b

/-- Keep an optional string only when it is truthy (present and nonempty). -/
def toTruthy (a : Option Str) : Option Str :=
  match a with
  | some s => if s.isEmpty then none else some s
  | none => none

/-- Python `a or b` on two optional strings: the left one if truthy, else the right. -/
def pyOr (a b : Option Str) : Option Str :=
  match a with
  | some s => if s.isEmpty then b else some s
  | none => b

def natOfDigits (s : Str) : Nat := s.foldl (fun n c => n * 10 + (c.toNat - 48)) 0

/-- Python `int(s)` on a string: optional surrounding whitespace, optional sign,
then a nonempty digit run; anything else raises `ValueError`. -/
def pyInt (s : Str) : Except Unit Int :=
  let t := stripEnds isSpaceC s
  match t with
  | [] => .error ()
  | c :: rest =>
    if c == '+' then
      if !rest.isEmpty && rest.all isDigitC then .ok (natOfDigits rest : Int) else .error ()
    else if c == '-' then
      if !rest.isEmpty && rest.all isDigitC then .ok (-(natOfDigits rest : Int)) else .error ()
    else
      if (c :: rest).all isDigitC then .ok (natOfDigits (c :: rest) : Int) else .error ()

/-- `int(field or 0)` for a JSON field that may be absent or empty. -/
def pyIntField (o : Option Str) : Except Unit Int :=
  match o with
  | none => .ok 0
  | some s => if s.isEmpty then .ok 0 else pyInt s

/-! ### `scopus_link`, `parts` and `normalize` -/

/-- `scopus_link(eid)` -/
def scopus_link (eid : Str) : Str :=
  "https://www.scopus.com/record/display.uri?eid=".data ++ eid ++
    "&origin=recordpage".data

/-- `str.zfill(2)` on the month/day components (no sign occurs there). -/
def zfill2 (s : Str) : Str := List.replicate (2 - s.length) '0' ++ s

/-- `parts(date)`: decompose a cover date `YYYY-MM-DD` (possibly partial) into
optional year/month/day, zero-padding month and day. -/
def parts (date : Str) : Option Str × Option Str × Option Str :=
  if date.isEmpty then (none, none, none)
  else
    let sp := List.splitOn '-' date
    let y := sp.head?
    let m := match sp[1]? with
      | some s => if s.isEmpty then none else some (zfill2 s)
      | none => none
    let d := match sp[2]? with
      | some s => if s.isEmpty then none else some (zfill2 s)
      | none => none
    (y, m, d)

/-- One raw search hit (the JSON fields `normalize` and the orchestrator read).
`none` means the key is absent. -/
structure RawRecord where
  title : Option Str := none            -- "dc:title"
  eid : Option Str := none              -- "eid"
  doi : Option Str := none              -- "prism:doi"
  citedby : Option Str := none          -- "citedby-count"
  coverDate : Option Str := none        -- "prism:coverDate"
  subtype : Option Str := none          -- "subtype"
  subtypeDescription : Option Str := none
  publicationName : Option Str := none  -- "prism:publicationName"
  volume : Option Str := none           -- "prism:volume"
  issueIdentifier : Option Str := none  -- "prism:issueIdentifier"
  pageRange : Option Str := none        -- "prism:pageRange"
  creator : Option Str := none          -- "dc:creator"
deriving DecidableEq

/-- The canonical publication row built by `normalize` (plus the owning-author
fields the orchestrator attaches right afterwards). -/
structure Publication where
  title : Str := []
  eid : Str := []
  scopus_url : Str := []
  doi : Option Str := none
  doi_url : Option Str := none
  cited_by : Int := 0
  cover_date : Str := []
  year : Option Str := none
  month : Option Str := none
  day : Option Str := none
  venue : Option Str := none
  type : Option Str := none
  subtype : Option Str := none
  volume : Option Str := none
  issue : Option Str := none
  pages : Option Str := none
  first_author : Option Str := none
  authors : List Str := []
  author_id : Str := []    -- attached by the orchestrator after `normalize`
  author_name : Str := []  -- attached by the orchestrator after `normalize`
deriving DecidableEq

/-- `normalize(it, authors)`.  The only fallible step is `int(it.get("citedby-count", 0) or 0)`,
which raises on a non-numeric citation count. -/
def normalize (it : RawRecord) (authors : List Str) : Except Unit Publication := do
  let pr := parts (pyOrS it.coverDate [])
  let cited ← pyIntField it.citedby
  pure {
    title := pyOrS it.title []
    eid := pyOrS it.eid []
    scopus_url := scopus_link (it.eid.getD [])
    doi := it.doi
    doi_url := match it.doi with
      | some s => if s.isEmpty then none else some ("https://doi.org/".data ++ s)
      | none => none
    cited_by := cited
    cover_date := pyOrS it.coverDate []
    year := pr.1
    month := pr.2.1
    day := pr.2.2
    venue := it.publicationName
    type := it.subtypeDescription
    subtype := it.subtype
    volume := it.volume
    issue := it.issueIdentifier
    pages := it.pageRange
    first_author := it.creator
    authors := authors }

/-! ### `fetch_authors` (detail enrichment, success-path parse) -/

/-- One author object inside `abstracts-retrieval-response.authors.author`. -/
structure AbstractAuthor where
  indexedName : Option Str := none           -- "ce:indexed-name"
  preferredIndexedName : Option Str := none  -- "preferred-name"."ce:indexed-name"
  authname : Option Str := none              -- "authname"
deriving DecidableEq

/-- The `author` field of the detail response: absent, a single object, or a list.
`fetch_authors` wraps the single-object case into a one-element list. -/
inductive AuthorsField where
  | absent : AuthorsField
  | one (a : AbstractAuthor) : AuthorsField
  | many (l : List AbstractAuthor) : AuthorsField
deriving DecidableEq

/-- `if isinstance(authors, dict): authors = [authors]` -/
def authorsAsList : AuthorsField → List AbstractAuthor
  | .absent => []
  | .one a => [a]
  | .many l => l

/-- `a.get("ce:indexed-name") or a.get("preferred-name", {}).get("ce:indexed-name") or a.get("authname")`,
kept only when truthy (`if nm:`). -/
def authorName (a : AbstractAuthor) : Option Str :=
  toTruthy (pyOr (pyOr a.indexedName a.preferredIndexedName) a.authname)

/-- The names extracted from one successful detail response. -/
def parseAuthors (af : AuthorsField) : List Str :=
  (authorsAsList af).filterMap authorName

/-! ### `fetch_author_profile` and the metrics step of `main` -/

structure PreferredName where
  givenName : Option Str := none  -- "given-name"
  surname : Option Str := none    -- "surname"
deriving DecidableEq

structure Coredata where
  preferredName : Option PreferredName := none  -- "preferred-name"
  citationCount : Option Str := none            -- "citation-count"
  documentCount : Option Str := none            -- "document-count"
deriving DecidableEq

structure ProfileCore where
  hIndex : Option Str := none          -- "h-index"
  coredata : Option Coredata := none   -- "coredata"
deriving DecidableEq

/-- The author-profile response body: `j.get("author-retrieval-response")`. -/
structure ProfileResp where
  arr : Option (List ProfileCore) := none
deriving DecidableEq

/-- The metrics dict built by `fetch_author_profile` (the `last_updated`
wall-clock timestamp is outside the embedding and omitted). -/
structure AuthorMetrics where
  author_id : Str := []
  author_name : Option Str := none
  h_index : Int := 0
  total_citations : Int := 0
  total_documents : Int := 0
  source : Str := []
deriving DecidableEq

/-- `" ".join(filter(None, [given, surname])) or None` -/
def joinedName (g s : Option Str) : Option Str :=
  let parts := ([g, s].filterMap toTruthy)
  let j := List.intercalate [' '] parts
  if j.isEmpty then none else some j

/-- `fetch_author_profile(author_id)` applied to the (possibly failed) network
response: `req` re-raises HTTP errors, and the `int(...)` conversions raise on
garbage; both propagate to the caller. -/
def fetch_author_profile (author_id : Str) (resp : Except Unit ProfileResp) :
    Except Unit AuthorMetrics := do
  let j ← resp
  let core := match j.arr with
    | some (c :: _) => c
    | some [] => {}      -- `(... or [{}])[0]` on an empty/falsy list
    | none => {}
  let cd := core.coredata.getD {}
  let nm := (cd.preferredName.getD {})
  let h ← pyIntField core.hIndex
  let tc ← pyIntField cd.citationCount
  let td ← pyIntField cd.documentCount
  pure {
    author_id := author_id
    author_name := joinedName nm.givenName nm.surname
    h_index := h
    total_citations := tc
    total_documents := td
    source := "scopus".data }

/-- The per-author metrics step of `main`:
`try: m = fetch_author_profile(aid); if not first_metrics: first_metrics = m
except Exception as e: log.warning(...)`.
Any failure is caught and logged; the retained metrics are unchanged. -/
def metricsStep (aid : Str) (first : Option AuthorMetrics)
    (resp : Except Unit ProfileResp) : Option AuthorMetrics :=
  match fetch_author_profile aid resp with
  | .ok m => if first.isNone then some m else first
  | .error _ => first

/-- Modelled from the spec: the computed-fallback `AuthorMetrics` that §4.4
prescribes when both profile views fail (`total_citations` = sum of harvested
citation counts, `total_documents` = record count, `h_index` = 0, provenance
`computed-fallback`).  No such code exists in the source; this definition
exists only to state what the claim predicts. -/
structure SpecFallbackMetrics where
  total_citations : Int
  total_documents : Int
  h_index : Int
  provenance : Str
deriving DecidableEq

/-- Modelled from the spec: see `SpecFallbackMetrics`. -/
def specFallback (recs : List Publication) : SpecFallbackMetrics :=
  { total_citations := (recs.map (·.cited_by)).sum
    total_documents := recs.length
    h_index := 0
    provenance := "computed-fallback".data }

/-! ### `iter_search` (paginated search) -/

def PAGE : Nat := 25

/-- Transient state of one paginated query: credential/attempt index `i`,
cursor `start`, and the total once observed. -/
structure SearchState where
  i : Nat := 0
  start : Nat := 0
  total : Option Nat := none
deriving DecidableEq

/-- One page of the search response: the `entry` list (already defaulted to `[]`
when absent or null) and the raw `opensearch:totalResults` string. -/
structure Page (α : Type) where
  entries : List α
  totalResults : Option Str := none
deriving DecidableEq

/-- `total = int(tr) if tr and str(tr).isdigit() else None` -/
def parseTotal (tr : Option Str) : Option Nat :=
  match tr with
  | some s => if !s.isEmpty && s.all isDigitC then some (natOfDigits s) else none
  | none => none

/-- The two `break` tests of `iter_search`, evaluated after the cursor advance:
`total is None and len(entries) < PAGE`, or
`total is not None and (start >= total or not entries)`. -/
def stopAfterPage (total : Option Nat) (entryCount : Nat) (startAfter : Nat) : Bool :=
  match total with
  | none => entryCount < PAGE
  | some t => startAfter ≥ t || entryCount == 0

/-- Outcome of one loop iteration of `iter_search`. -/
inductive StepRes (α : Type) where
  | failed (next : SearchState) (backoffMs : Nat) : StepRes α
  | page (yielded : List α) (next : SearchState) (stop : Bool) : StepRes α
deriving DecidableEq

/-- One iteration of the `while True` loop of `iter_search`, on the given
response (`none` = the request raised).  On failure: rotate the key
(`i += 1`), sleep 0.4 s, retry the same offset.  On success: capture the total
if still unknown, yield the entries, advance the cursor by `PAGE`, then test
the two termination conditions. -/
def searchStep {α : Type} (st : SearchState) (resp : Option (Page α)) : StepRes α :=
  match resp with
  | none => .failed { st with i := st.i + 1 } 400
  | some pg =>
    let total := match st.total with
      | some t => some t
      | none => parseTotal pg.totalResults
    let startAfter := st.start + PAGE
    .page pg.entries { st with start := startAfter, total := total }
      (stopAfterPage total pg.entries.length startAfter)

/-- Result of driving the search loop with bounded fuel: the yielded records,
the number of requests made, and whether the loop reached a `break` (as
opposed to running out of fuel). -/
structure RunResult (α : Type) where
  yielded : List α
  fetches : Nat
  finished : Bool
deriving DecidableEq

/-- Drive `iter_search` against an endpoint mapping the cursor to a response
(`none` = request failure), with fuel bounding the number of iterations. -/
def runSearchFrom {α : Type} (endpoint : Nat → Option (Page α)) :
    Nat → SearchState → RunResult α
  | 0, _ => ⟨[], 0, false⟩
  | fuel + 1, st =>
    match searchStep st (endpoint st.start) with
    | .failed st2 _ =>
      let r := runSearchFrom endpoint fuel st2
      ⟨r.yielded, r.fetches + 1, r.finished⟩
    | .page es st2 stop =>
      if stop then ⟨es, 1, true⟩
      else
        let r := runSearchFrom endpoint fuel st2
        ⟨es ++ r.yielded, r.fetches + 1, r.finished⟩

def runSearch {α : Type} (endpoint : Nat → Option (Page α)) (fuel : Nat) : RunResult α :=
  runSearchFrom endpoint fuel {}

/-- A mocked endpoint that reports `total = 47` and serves pages of at most 25
entries (entry `k` is the number `k`). -/
def endpoint47 : Nat → Option (Page Nat) :=
  fun start => some { entries := (List.range (min PAGE (47 - start))).map (· + start)
                      totalResults := some "47".data }

/-- An endpoint on which every request fails. -/
def endpointFail : Nat → Option (Page Nat) := fun _ => none

/-! ### Category filtering (`main`, lines 179-204) -/

/-- Naive substring test, Python `t in desc`. -/
def isPrefixL : Str → Str → Bool
  | [], _ => true
  | _ :: _, [] => false
  | a :: as, b :: bs => a == b && isPrefixL as bs

def isSubstr (pat : Str) (s : Str) : Bool :=
  match s with
  | [] => pat.isEmpty
  | c :: rest => isPrefixL pat (c :: rest) || isSubstr pat rest

/-- `keep_all = args.types.strip() == "*"` -/
def keepAllOf (types : Str) : Bool := stripEnds isSpaceC types == "*".data

/-- `include = [t.strip().lower() for t in args.types.split(",") if t.strip()]` -/
def includeOf (types : Str) : List Str :=
  (List.splitOn ',' types).filterMap (fun t =>
    let t2 := stripEnds isSpaceC t
    if t2.isEmpty then none else some (toLowerStr t2))

/-- `desc = (it.get("subtypeDescription") or it.get("subtype") or "").lower()` -/
def descOf (it : RawRecord) : Str :=
  toLowerStr (pyOrS it.subtypeDescription (pyOrS it.subtype []))

/-- `keep = keep_all or any(t in desc for t in include) or it.get("subtype", "").lower() == "cp"` -/
def keepRecord (keepAll : Bool) (includeTypes : List Str) (it : RawRecord) : Bool :=
  keepAll || includeTypes.any (fun t => isSubstr t (descOf it)) ||
    toLowerStr (it.subtype.getD []) == "cp".data

/-- The keep predicate exactly as claim C4 words it: the substring match is
applied to the record's category *description* (never to its code), lower-cased
on both sides; stated for comparison with `keepRecord`. -/
def keepClaimC4 (keepAll : Bool) (includeTypes : List Str) (it : RawRecord) : Bool :=
  keepAll ||
    includeTypes.any (fun t =>
      isSubstr (toLowerStr t) (toLowerStr (it.subtypeDescription.getD []))) ||
    toLowerStr (it.subtype.getD []) == "cp".data

/-! ### The per-author sort (`main`, lines 211-218) -/

/-- Lexicographic strict `<` on strings by code point (Python string `<`). -/
def strLT : Str → Str → Bool
  | [], [] => false
  | [], _ :: _ => true
  | _ :: _, [] => false
  | a :: as, b :: bs =>
    if a.toNat < b.toNat then true
    else if b.toNat < a.toNat then false
    else strLT as bs

/-- Lexicographic `≤` on strings by code point. -/
def strLE : Str → Str → Bool
  | [], _ => true
  | _ :: _, [] => false
  | a :: as, b :: bs =>
    if a.toNat < b.toNat then true
    else if b.toNat < a.toNat then false
    else strLE as bs

/-- The sort key of one row:
`(int(r["year"]) if r.get("year") and str(r["year"]).isdigit() else -1,
  r.get("month") or "", r.get("title") or "")`. -/
def rowKey (p : Publication) : Int × Str × Str :=
  (match p.year with
   | some s => if !s.isEmpty && s.all isDigitC then (natOfDigits s : Int) else -1
   | none => -1,
   pyOrS p.month [],
   pyOrS (some p.title) [])

/-- `≤` on sort keys: lexicographic on (year, month, title). -/
def keyLE (a b : Int × Str × Str) : Bool :=
  if a.1 < b.1 then true
  else if b.1 < a.1 then false
  else if strLT a.2.1 b.2.1 then true
  else if strLT b.2.1 a.2.1 then false
  else strLE a.2.2 b.2.2

/-- Stable descending insertion: `x` goes before the first element whose key it
reaches or exceeds, so later rows with equal keys stay behind earlier ones —
the ordering `list.sort(key=..., reverse=True)` produces. -/
def insertRow (x : Publication) : List Publication → List Publication
  | [] => [x]
  | y :: l => if keyLE (rowKey y) (rowKey x) then x :: y :: l else y :: insertRow x l

/-- `rows.sort(key=..., reverse=True)`: stable sort, newest first. -/
def sortRows : List Publication → List Publication
  | [] => []
  | x :: xs => insertRow x (sortRows xs)

/-- The descending-order relation between adjacent sorted rows. -/
def rowGE (a b : Publication) : Prop := keyLE (rowKey b) (rowKey a) = true

/-! ### The per-author loop of `main` (orchestration) -/

/-- Run-time options of `main` plus the enrichment oracle (what `fetch_authors`
would return for a record, after its internal bounded retry). -/
structure OrchConfig where
  keepAll : Bool
  includeTypes : List Str
  details : Bool
  enrich : RawRecord → List Str

/-- Everything one author contributes to a run: roster identity, the records
`iter_search` yields for the author's query, and the profile response. -/
structure AuthorInput where
  aid : Str
  nm : Str
  results : List RawRecord
  profile : Except Unit ProfileResp

/-- The body of the per-author loop before the metrics step: filter each raw
record, optionally enrich, normalize, attach the owning author, and sort.  A
`normalize` failure propagates — `main` has no handler around this code. -/
def processAuthor (cfg : OrchConfig) (a : AuthorInput) : Except Unit (List Publication) := do
  let kept := a.results.filter (keepRecord cfg.keepAll cfg.includeTypes)
  let rows ← kept.mapM (fun it => do
    let auth := if cfg.details && !(it.eid.getD []).isEmpty then cfg.enrich it else []
    let p ← normalize it auth
    pure { p with author_id := a.aid, author_name := a.nm })
  pure (sortRows rows)

inductive RunError where
  | perAuthor : RunError    -- an uncaught exception escaping the per-author loop
  | globalEmpty : RunError  -- the final `SystemExit("No publications and no metrics retrieved.")`
deriving DecidableEq

/-- The author loop of `main` followed by the global-empty check.  Only the
metrics fetch is inside a `try`/`except`; any other per-author failure escapes
the loop and aborts the run. -/
def runAuthorsGo (cfg : OrchConfig) :
    List AuthorInput → List Publication → Option AuthorMetrics →
    Except RunError (List Publication × Option AuthorMetrics)
  | [], combined, first =>
    if combined.isEmpty && first.isNone then .error .globalEmpty else .ok (combined, first)
  | a :: rest, combined, first =>
    match processAuthor cfg a with
    | .error _ => .error .perAuthor
    | .ok rows => runAuthorsGo cfg rest (combined ++ rows) (metricsStep a.aid first a.profile)

def runAuthors (cfg : OrchConfig) (inputs : List AuthorInput) :
    Except RunError (List Publication × Option AuthorMetrics) :=
  runAuthorsGo cfg inputs [] none

/-! ### Concrete inputs used by the claim theorems -/

/-- Harvested records with citation counts [5, 3, 0] (the spec's §8 example). -/
def fiveThreeZero : List Publication :=
  [{ cited_by := 5 }, { cited_by := 3 }, { cited_by := 0 }]

/-- A raw record carrying only a DOI and an EID (for the link claims). -/
def rec7 : RawRecord := { eid := some "2-s2.0-1".data, doi := some "10.1/x".data }

/-- The row `normalize` produces for `rec7`. -/
def pub7 : Publication :=
  match normalize rec7 [] with
  | .ok p => p
  | .error _ => {}

/-- Options: no filtering, no enrichment. -/
def cfgPlain : OrchConfig := ⟨true, [], false, fun _ => []⟩

/-- An author whose result set contains a record with a non-numeric
`citedby-count` — `normalize` raises on it. -/
def badAuthor : AuthorInput :=
  ⟨"1".data, "A".data, [{ citedby := some "oops".data }], .error ()⟩

/-- An author whose records all normalize cleanly. -/
def goodAuthor : AuthorInput :=
  ⟨"2".data, "B".data, [{ citedby := some "3".data }], .error ()⟩

/-- Rows for the sort example: (year, month) = (2020,"03"), (2019,"01"), (2020,"11"). -/
def row2020_03 : Publication :=
  { title := "b".data, year := some "2020".data, month := some "03".data }

def row2019_01 : Publication :=
  { title := "a".data, year := some "2019".data, month := some "01".data }

def row2020_11 : Publication :=
  { title := "c".data, year := some "2020".data, month := some "11".data }

/-- Two rows in the same (year, month), differing only in title. -/
def rowTieAlpha : Publication :=
  { title := "alpha".data, year := some "2021".data, month := some "05".data }

def rowTieZeta : Publication :=
  { title := "zeta".data, year := some "2021".data, month := some "05".data }

/-! ## Theorems -/

/-- C1 (counterexample): when the profile request fails, the orchestrator
records no metrics at all (`none`) — it does not produce the computed-fallback
`AuthorMetrics` that the claim prescribes for harvested citation counts
[5, 3, 0] (total_citations 8, total_documents 3, h_index 0,
provenance computed-fallback). -/
theorem c1_metrics_counterexample :
    metricsStep "57190000000".data none (.error ()) = none ∧
    specFallback fiveThreeZero =
      { total_citations := 8, total_documents := 3, h_index := 0,
        provenance := "computed-fallback".data } := by
  decide

/-- C1 (amended): metrics resolution tries a single profile view; on any
failure the orchestrator catches the error and leaves the retained metrics
unchanged (in particular, no fallback is computed from the harvested records
and nothing propagates); on success the metrics are kept only when none were
retained yet. -/
theorem c1_metrics_amended :
    (∀ (aid : Str) (first : Option AuthorMetrics) (e : Unit),
        metricsStep aid first (.error e) = first) ∧
    (∀ (aid : Str) (first : Option AuthorMetrics) (resp : Except Unit ProfileResp),
        metricsStep aid first resp = first ∨
        ∃ m, fetch_author_profile aid resp = .ok m ∧ first = none ∧
          metricsStep aid first resp = some m) := by
  constructor
  · intro aid first e
    cases e
    rfl
  · intro aid first resp
    cases hm : fetch_author_profile aid resp with
    | error e => left; simp [metricsStep, hm]
    | ok m =>
      cases first with
      | none => right; exact ⟨m, rfl, rfl, by simp [metricsStep, hm]⟩
      | some x => left; simp [metricsStep, hm]

/-- C2: the paginated stream stops exactly when the total is known and the
advanced cursor has reached or passed it, or the total is unknown and the page
was short, or the page was empty; and against the mocked endpoint reporting
total = 47 with pages of 25, the stream yields exactly 47 records in exactly
2 page fetches. -/
theorem c2_pagination_exact :
    (∀ (total : Option Nat) (n startAfter : Nat),
        stopAfterPage total n startAfter = true ↔
          ((∃ t, total = some t ∧ startAfter ≥ t) ∨
            (total = none ∧ n < PAGE) ∨ n = 0)) ∧
    (runSearch endpoint47 100).yielded.length = 47 ∧
    (runSearch endpoint47 100).fetches = 2 ∧
    (runSearch endpoint47 100).finished = true := by
  refine ⟨?_, by decide, by decide, by decide⟩
  intro total n startAfter
  cases total <;> (simp [stopAfterPage, PAGE]; (try omega))

/-- C6: the pagination cursor advances only after a successful page fetch — a
failed request increments the attempt counter, keeps the same offset, applies
the fixed 400 ms backoff and retries; a successful fetch advances the cursor by
the page size without touching the rotation index; and the retry loop has no
attempt ceiling: against an endpoint that always fails, the stream never
finishes and never yields, for any number of iterations. -/
theorem c6_cursor_only_advances_on_success :
    (∀ st : SearchState, searchStep (α := Nat) st none =
        .failed ⟨st.i + 1, st.start, st.total⟩ 400) ∧
    (∀ (st : SearchState) (pg : Page Nat), ∃ es st2 stop,
        searchStep st (some pg) = .page es st2 stop ∧
        st2.start = st.start + PAGE ∧ st2.i = st.i) ∧
    (∀ (fuel : Nat) (st : SearchState),
        (runSearchFrom endpointFail fuel st).finished = false ∧
        (runSearchFrom endpointFail fuel st).yielded = []) := by
  refine ⟨?_, ?_, ?_⟩
  · intro st
    rfl
  · intro st pg
    exact ⟨pg.entries, _, _, rfl, rfl, rfl⟩
  · intro fuel
    induction fuel with
    | zero => intro st; exact ⟨rfl, rfl⟩
    | succ n ih =>
      intro st
      simpa [runSearchFrom, endpointFail, searchStep] using ih _

/-- C10: when the detail endpoint returns a single author object, enrichment
treats it exactly as a one-element list; each author's display name is the
first truthy one of indexed-name, preferred-name's indexed-name, and authname,
and an author with none of them contributes nothing. -/
theorem c10_single_author_object :
    (∀ a : AbstractAuthor, parseAuthors (.one a) = parseAuthors (.many [a])) ∧
    (∀ a : AbstractAuthor, parseAuthors (.one a) = (authorName a).toList) ∧
    (∀ (a : AbstractAuthor) (s : Str), a.indexedName = some s → s ≠ [] →
        authorName a = some s) ∧
    (∀ (a : AbstractAuthor) (s : Str),
        (a.indexedName = none ∨ a.indexedName = some []) →
        a.preferredIndexedName = some s → s ≠ [] → authorName a = some s) ∧
    (∀ (a : AbstractAuthor) (s : Str),
        (a.indexedName = none ∨ a.indexedName = some []) →
        (a.preferredIndexedName = none ∨ a.preferredIndexedName = some []) →
        a.authname = some s → s ≠ [] → authorName a = some s) := by
  refine ⟨fun a => rfl, ?_, ?_, ?_, ?_⟩
  · intro a
    cases h : authorName a <;>
      simp [parseAuthors, authorsAsList, List.filterMap, h]
  · intro a s h hs
    simp [authorName, pyOr, h, toTruthy, List.isEmpty_iff, hs]
  · intro a s h hp hs
    rcases h with h | h <;>
      simp [authorName, pyOr, h, hp, toTruthy, List.isEmpty_iff, hs]
  · intro a s h hp ha hs
    rcases h with h | h <;> rcases hp with hp | hp <;>
      simp [authorName, pyOr, h, hp, ha, toTruthy, List.isEmpty_iff, hs]

/-- C10 (witness): a concrete author object carrying only an indexed name. -/
theorem c10_single_author_object_witness :
    authorName { indexedName := some "Smith J.".data } = some "Smith J.".data :=
  c10_single_author_object.2.2.1 _ _ rfl (by decide)

theorem isPrefixL_iff (a b : Str) : isPrefixL a b = true ↔ a <+: b := by
  induction a generalizing b with
  | nil => simp [isPrefixL]
  | cons c cs ih =>
    cases b with
    | nil => simp [isPrefixL]
    | cons d ds => simp [isPrefixL, List.cons_prefix_cons, ih]

theorem isSubstr_iff (p s : Str) : isSubstr p s = true ↔ p <:+: s := by
  induction s with
  | nil => simp [isSubstr, List.isEmpty_iff]
  | cons c cs ih =>
    simp [isSubstr, List.infix_cons_iff, isPrefixL_iff, ih]

/-- C4 (counterexample): with allow-list ["a"], a record whose category
description is absent and whose category code is "ar" is kept by the code
(the substring match falls back to the code), while the claim's predicate —
substring match against the description only — rejects it. -/
theorem c4_filter_counterexample :
    keepRecord false ["a".data] { subtype := some "ar".data } = true ∧
    keepClaimC4 false ["a".data] { subtype := some "ar".data } = false := by
  decide

/-- C4 (amended): a record is kept iff the allow-list is the wildcard, or some
allow-list entry is a substring of the record's lower-cased category
description — with the category code standing in for an absent or empty
description — or its category code is the conference-paper sentinel "cp";
with allow-list ["Article"], a record described "Article" is kept, a record
with the sentinel code is kept regardless of description, a record described
"Note" is dropped, and the wildcard keeps every record. -/
theorem c4_filter_amended :
    (∀ (keepAll : Bool) (ts : List Str) (it : RawRecord),
        keepRecord keepAll ts it = true ↔
          keepAll = true ∨ (∃ t ∈ ts, t <:+: descOf it) ∨
            toLowerStr (it.subtype.getD []) = "cp".data) ∧
    keepRecord (keepAllOf "Article".data) (includeOf "Article".data)
      { subtypeDescription := some "Article".data } = true ∧
    keepRecord (keepAllOf "Article".data) (includeOf "Article".data)
      { subtypeDescription := some "Whatever".data, subtype := some "cp".data } = true ∧
    keepRecord (keepAllOf "Article".data) (includeOf "Article".data)
      { subtypeDescription := some "Note".data } = false ∧
    (∀ it : RawRecord, keepRecord (keepAllOf "*".data) (includeOf "*".data) it = true) := by
  refine ⟨?_, by decide, by decide, by decide, ?_⟩
  · intro keepAll ts it
    simp [keepRecord, List.any_eq_true, isSubstr_iff]
    exact or_assoc
  · intro it
    have h : keepAllOf "*".data = true := by decide
    simp [keepRecord, h]

/-- C9: when a record's category description is absent or empty, the effective
description the filter matches against is the lower-cased category code, so the
keep decision reduces to matching the allow-list against the code (the sentinel
test is unchanged). -/
theorem c9_description_falls_back_to_code (keepAll : Bool) (ts : List Str)
    (it : RawRecord)
    (h : it.subtypeDescription = none ∨ it.subtypeDescription = some []) :
    descOf it = toLowerStr (pyOrS it.subtype []) ∧
    keepRecord keepAll ts it =
      (keepAll || ts.any (fun t => isSubstr t (toLowerStr (pyOrS it.subtype []))) ||
        toLowerStr (it.subtype.getD []) == "cp".data) := by
  have hd : descOf it = toLowerStr (pyOrS it.subtype []) := by
    rcases h with h | h <;> simp [descOf, pyOrS, h]
  exact ⟨hd, by simp [keepRecord, hd]⟩

/-- C9 (witness): a record with no description and category code "ar" is kept
by the allow-list entry "a", which occurs in its code. -/
theorem c9_description_falls_back_to_code_witness :
    descOf { subtype := some "ar".data } =
      toLowerStr (pyOrS (some "ar".data) []) ∧
    keepRecord false ["a".data] { subtype := some "ar".data } =
      (false ||
        ["a".data].any (fun t => isSubstr t (toLowerStr (pyOrS (some "ar".data) []))) ||
        toLowerStr ((some "ar".data : Option Str).getD []) == "cp".data) :=
  c9_description_falls_back_to_code false ["a".data] { subtype := some "ar".data }
    (Or.inl rfl)

/-- C7 (counterexample): on a record with no EID at all, `normalize` still
builds the external display link — with an empty identifier spliced in — rather
than leaving the field null as the claim states. -/
theorem c7_links_counterexample :
    (normalize ({} : RawRecord) []).map (·.scopus_url) =
      .ok "https://www.scopus.com/record/display.uri?eid=&origin=recordpage".data ∧
    (normalize ({} : RawRecord) []).map (fun p => p.scopus_url.isEmpty) = .ok false :=
  ⟨rfl, rfl⟩

/-- C7 (amended): the DOI link is built exactly when a nonempty DOI is present
(absent or empty DOI yields a null link, not an error), while the external
display link is always built from the EID field, splicing in the empty string
when the EID is absent. -/
theorem c7_links_amended (it : RawRecord) (authors : List Str) (p : Publication)
    (h : normalize it authors = .ok p) :
    (p.doi_url = none ↔ (it.doi = none ∨ it.doi = some [])) ∧
    (∀ d, it.doi = some d → d ≠ [] →
      p.doi_url = some ("https://doi.org/".data ++ d)) ∧
    p.scopus_url = scopus_link (it.eid.getD []) := by
  cases hc : pyIntField it.citedby with
  | error e => simp [normalize, hc] at h
  | ok c =>
    simp only [normalize, hc, Except.bind, bind, pure, Except.pure] at h
    cases h
    refine ⟨?_, ?_, rfl⟩
    · cases hd : it.doi with
      | none => simp
      | some d =>
        cases d with
        | nil => simp [List.isEmpty]
        | cons x xs => simp [List.isEmpty]
    · intro d hd hne
      simp only [hd]
      simp [List.isEmpty_iff, hne]

/-- C7 (witness): a record carrying both a DOI and an EID. -/
theorem c7_links_amended_witness :
    pub7.doi_url = some ("https://doi.org/".data ++ "10.1/x".data) ∧
    pub7.scopus_url = scopus_link ((rec7.eid).getD []) :=
  ⟨(c7_links_amended rec7 [] pub7 rfl).2.1 "10.1/x".data rfl (by decide),
   (c7_links_amended rec7 [] pub7 rfl).2.2⟩

/-- C8 (counterexample): the run aborts on the first author, whose result set
contains a record with a non-numeric citation count (`normalize` raises and
nothing catches it), even though the second author's records are perfectly
processable — contradicting "a per-author failure never aborts the whole
run". -/
theorem c8_per_author_counterexample :
    runAuthors cfgPlain [badAuthor, goodAuthor] = .error .perAuthor ∧
    isOkE (processAuthor cfgPlain goodAuthor) = true :=
  ⟨rfl, by decide⟩

theorem runAuthorsGo_no_perAuthor (cfg : OrchConfig) :
    ∀ (inputs : List AuthorInput) (combined : List Publication)
      (first : Option AuthorMetrics),
      (∀ a ∈ inputs, isOkE (processAuthor cfg a) = true) →
      runAuthorsGo cfg inputs combined first ≠ .error .perAuthor := by
  intro inputs
  induction inputs with
  | nil =>
    intro combined first _
    simp only [runAuthorsGo]
    split <;> simp
  | cons a rest ih =>
    intro combined first h
    have ha := h a (by simp)
    cases hp : processAuthor cfg a with
    | error e => rw [hp] at ha; simp [isOkE] at ha
    | ok rows =>
      simp only [runAuthorsGo, hp]
      exact ih _ _ (fun b hb => h b (by simp [hb]))

/-- C8 (amended): only failures of the per-author metrics fetch are caught and
logged; provided every author's records filter, enrich and normalize cleanly,
the run never aborts with a per-author error, whatever the profile responses
are — but an unexpected failure while processing an author's records (see the
counterexample) propagates and aborts the whole run. -/
theorem c8_per_author_amended (cfg : OrchConfig) (inputs : List AuthorInput)
    (h : ∀ a ∈ inputs, isOkE (processAuthor cfg a) = true) :
    runAuthors cfg inputs ≠ .error .perAuthor :=
  runAuthorsGo_no_perAuthor cfg inputs [] none h

/-- C8 (witness): a single author with a clean record set and a failing
profile request. -/
theorem c8_per_author_amended_witness :
    runAuthors cfgPlain [goodAuthor] ≠ .error .perAuthor :=
  c8_per_author_amended cfgPlain [goodAuthor] (by
    intro a ha
    simp only [List.mem_singleton] at ha
    subst ha
    decide)

theorem strLE_total (a b : Str) : strLE a b = true ∨ strLE b a = true := by
  induction a generalizing b with
  | nil => left; simp [strLE]
  | cons c cs ih =>
    cases b with
    | nil => right; simp [strLE]
    | cons d ds =>
      rcases Nat.lt_trichotomy c.toNat d.toNat with h | h | h
      · left; simp [strLE, h]
      · rcases ih ds with h4 | h4
        · left; simp [strLE, h, h4]
        · right; simp [strLE, h, h4]
      · right; simp [strLE, h]

theorem keyLE_total (a b : Int × Str × Str) : keyLE a b = true ∨ keyLE b a = true := by
  obtain ⟨a1, a2, a3⟩ := a
  obtain ⟨b1, b2, b3⟩ := b
  rcases lt_trichotomy a1 b1 with h | h | h
  · left; simp [keyLE, h]
  · subst h
    by_cases h2 : strLT a2 b2 = true
    · left; simp [keyLE, lt_self_iff_false, h2]
    · by_cases h3 : strLT b2 a2 = true
      · right; simp [keyLE, lt_self_iff_false, h3]
      · rcases strLE_total a3 b3 with h4 | h4
        · left; simp [keyLE, lt_self_iff_false, h2, h3, h4]
        · right; simp [keyLE, lt_self_iff_false, h2, h3, h4]
  · right; simp [keyLE, h]

theorem chain'_insertRow (x : Publication) (l : List Publication)
    (h : l.Chain' rowGE) : (insertRow x l).Chain' rowGE := by
  induction l with
  | nil => simp [insertRow]
  | cons y l ih =>
    by_cases hxy : keyLE (rowKey y) (rowKey x) = true
    · simp only [insertRow, hxy, if_true]
      exact List.Chain'.cons hxy h
    · simp only [insertRow, hxy, if_false]
      have hyx : keyLE (rowKey x) (rowKey y) = true :=
        (keyLE_total (rowKey x) (rowKey y)).resolve_right hxy
      refine List.chain'_cons'.mpr ⟨?_, ih h.tail⟩
      intro z hz
      cases l with
      | nil =>
        simp [insertRow] at hz
        subst hz
        exact hyx
      | cons w l' =>
        by_cases hwx : keyLE (rowKey w) (rowKey x) = true
        · simp [insertRow, hwx] at hz
          subst hz
          exact hyx
        · simp [insertRow, hwx] at hz
          subst hz
          exact (List.chain'_cons.mp h).1

theorem insertRow_perm (x : Publication) (l : List Publication) :
    (insertRow x l).Perm (x :: l) := by
  induction l with
  | nil => exact List.Perm.refl _
  | cons y l ih =>
    by_cases hxy : keyLE (rowKey y) (rowKey x) = true
    · simp only [insertRow, hxy, if_true]
      exact List.Perm.refl _
    · simp only [insertRow, hxy, if_false]
      exact (ih.cons y).trans (List.Perm.swap x y l)

theorem sortRows_perm (l : List Publication) : (sortRows l).Perm l := by
  induction l with
  | nil => exact List.Perm.refl _
  | cons x xs ih =>
    exact (insertRow_perm x (sortRows xs)).trans (ih.cons x)

theorem sortRows_chain' (l : List Publication) : (sortRows l).Chain' rowGE := by
  induction l with
  | nil => simp [sortRows]
  | cons x xs ih => exact chain'_insertRow x (sortRows xs) ih

/-- C5: the per-author sort produces a permutation of the rows that is ordered
descending by the composite key (year as integer with missing/non-numeric year
mapped below any real year; then month as a string, missing mapped to the empty
string; then title) — newest first, and within a (year, month) tie the
alphabetically-last title first; the (year, month) example
[(2020,"03"), (2019,"01"), (2020,"11")] sorts to
[(2020,"11"), (2020,"03"), (2019,"01")]. -/
theorem c5_sort_descending :
    (∀ l : List Publication, (sortRows l).Perm l ∧ (sortRows l).Chain' rowGE) ∧
    sortRows [row2020_03, row2019_01, row2020_11] =
      [row2020_11, row2020_03, row2019_01] ∧
    sortRows [rowTieAlpha, rowTieZeta] = [rowTieZeta, rowTieAlpha] :=
  ⟨fun l => ⟨sortRows_perm l, sortRows_chain' l⟩, by decide, by decide⟩

theorem dropWhile_append_all {p : Char → Bool} {xs l : Str}
    (h : ∀ c ∈ xs, p c = true) : (xs ++ l).dropWhile p = l.dropWhile p := by
  induction xs with
  | nil => rfl
  | cons c cs ih =>
    have hc := h c (by simp)
    simp only [List.cons_append, List.dropWhile_cons, hc, if_true]
    exact ih (fun d hd => h d (by simp [hd]))

theorem dropWhile_cons_false {p : Char → Bool} {c : Char} {cs : Str}
    (h : p c = false) : (c :: cs).dropWhile p = c :: cs := by
  simp [List.dropWhile_cons, h]

theorem stripEnds_wrap {p : Char → Bool} {xs l ys : Str}
    (hxs : ∀ c ∈ xs, p c = true) (hys : ∀ c ∈ ys, p c = true)
    (hne : l ≠ [])
    (hhead : ∀ c, l.head? = some c → p c = false)
    (hlast : ∀ c, l.getLast? = some c → p c = false) :
    stripEnds p (xs ++ l ++ ys) = l := by
  obtain ⟨c, cs, rfl⟩ : ∃ c cs, l = c :: cs := by
    cases l with
    | nil => exact absurd rfl hne
    | cons c cs => exact ⟨c, cs, rfl⟩
  have hc : p c = false := hhead c rfl
  have h1 : (xs ++ (c :: cs) ++ ys).dropWhile p = (c :: cs) ++ ys := by
    rw [List.append_assoc, dropWhile_append_all hxs]
    simp [List.dropWhile_cons, hc]
  rw [stripEnds, h1, List.reverse_append,
    dropWhile_append_all (fun d hd => hys d (List.mem_reverse.mp hd))]
  cases hrev : (c :: cs).reverse with
  | nil => exact absurd (List.reverse_eq_nil_iff.mp hrev) (by simp)
  | cons d ds =>
    have hd : p d = false := hlast d (by rw [← List.head?_reverse, hrev]; rfl)
    rw [dropWhile_cons_false hd, ← hrev, List.reverse_reverse]

theorem splitSepAux_token (t : Str) :
    ∀ (rest acc : Str), (∀ c ∈ t, isSepC c = false) →
      splitSepAux (t ++ rest) acc = splitSepAux rest (t.reverse ++ acc) := by
  induction t with
  | nil => intro rest acc _; simp
  | cons c cs ih =>
    intro rest acc h
    have hc := h c (by simp)
    rw [List.cons_append]
    simp only [splitSepAux]
    rw [if_neg (by simp [hc])]
    rw [ih rest (c :: acc) (fun d hd => h d (by simp [hd]))]
    simp [List.append_assoc]

theorem splitSepSkip_run (s : Str) :
    ∀ (d : Char) (r : Str), (∀ c ∈ s, isSepC c = true) → isSepC d = false →
      splitSepSkip (s ++ d :: r) = splitSepAux r [d] := by
  induction s with
  | nil =>
    intro d r _ hd
    simp only [List.nil_append, splitSepSkip]
    rw [if_neg (by simp [hd])]
  | cons c cs ih =>
    intro d r h hd
    have hc := h c (by simp)
    rw [List.cons_append]
    simp only [splitSepSkip]
    rw [if_pos (by simp [hc])]
    exact ih d r (fun e he => h e (by simp [he])) hd

theorem joinDec_nil (t0 : Str) : joinDec t0 [] = t0 := by
  simp [joinDec]

theorem joinDec_cons (t0 : Str) (q : Str × Str) (rest : List (Str × Str)) :
    joinDec t0 (q :: rest) = t0 ++ q.1 ++ joinDec q.2 rest := by
  simp [joinDec, List.append_assoc]

theorem joinDec_ne_nil {t0 : Str} (h : t0 ≠ []) (rest : List (Str × Str)) :
    joinDec t0 rest ≠ [] := by
  cases t0 with
  | nil => exact absurd rfl h
  | cons c cs => simp [joinDec]

theorem joinDec_head? (c : Char) (cs : Str) (rest : List (Str × Str)) :
    (joinDec (c :: cs) rest).head? = some c := by
  simp [joinDec]

theorem joinDec_getLast_mem :
    ∀ (rest : List (Str × Str)) (t0 : Str), t0 ≠ [] →
      (∀ q ∈ rest, q.2 ≠ []) →
      ∀ c, (joinDec t0 rest).getLast? = some c →
        c ∈ t0 ∨ ∃ q ∈ rest, c ∈ q.2 := by
  intro rest
  induction rest with
  | nil =>
    intro t0 _ _ c hc
    rw [joinDec_nil] at hc
    obtain ⟨ys, rfl⟩ := List.getLast?_eq_some_iff.mp hc
    exact Or.inl (by simp)
  | cons q rest ih =>
    intro t0 hne hq c hc
    rw [joinDec_cons, List.getLast?_append] at hc
    cases hg : (joinDec q.2 rest).getLast? with
    | none =>
      exact absurd (List.getLast?_eq_none_iff.mp hg)
        (joinDec_ne_nil (hq q (by simp)) rest)
    | some d =>
      rw [hg, Option.or_some] at hc
      obtain rfl := Option.some.inj hc
      rcases ih q.2 (hq q (by simp)) (fun r hr => hq r (by simp [hr])) d hg with
        h | ⟨r, hr, hdr⟩
      · exact Or.inr ⟨q, by simp, h⟩
      · exact Or.inr ⟨r, by simp [hr], hdr⟩

theorem splitSepAux_joinDec :
    ∀ (rest : List (Str × Str)) (t0 acc : Str),
      (∀ c ∈ t0, isSepC c = false) →
      (∀ q ∈ rest, (q.1 ≠ [] ∧ ∀ c ∈ q.1, isSepC c = true) ∧
          (q.2 ≠ [] ∧ ∀ c ∈ q.2, isSepC c = false)) →
      splitSepAux (joinDec t0 rest) acc = (acc.reverse ++ t0) :: rest.map Prod.snd := by
  intro rest
  induction rest with
  | nil =>
    intro t0 acc h _
    have ht := splitSepAux_token t0 [] acc h
    rw [List.append_nil] at ht
    rw [joinDec_nil, ht]
    simp [splitSepAux, List.reverse_append]
  | cons q rest ih =>
    intro t0 acc h hq
    obtain ⟨⟨hs_ne, hs_all⟩, ht_ne, ht_all⟩ := hq q (by simp)
    obtain ⟨c, cs, hcq⟩ : ∃ c cs, q.1 = c :: cs := by
      cases hv : q.1 with
      | nil => exact absurd hv hs_ne
      | cons c cs => exact ⟨c, cs, rfl⟩
    obtain ⟨d, ts, hdq⟩ : ∃ d ts, q.2 = d :: ts := by
      cases hv : q.2 with
      | nil => exact absurd hv ht_ne
      | cons d ts => exact ⟨d, ts, rfl⟩
    have hc : isSepC c = true := hs_all c (by simp [hcq])
    have hd : isSepC d = false := ht_all d (by simp [hdq])
    rw [joinDec_cons, List.append_assoc, splitSepAux_token t0 _ acc h, hcq,
      List.cons_append]
    simp only [splitSepAux]
    rw [if_pos (by simp [hc])]
    have hJ : joinDec q.2 rest = d :: (ts ++ rest.foldr (fun r a => r.1 ++ r.2 ++ a) []) := by
      simp [joinDec, hdq]
    rw [hJ, splitSepSkip_run cs d _ (fun e he => hs_all e (by simp [hcq, he])) hd]
    have hEq : ts ++ rest.foldr (fun r a => r.1 ++ r.2 ++ a) [] = joinDec ts rest := rfl
    rw [hEq, ih ts [d] (fun e he => ht_all e (by simp [hdq, he]))
      (fun r hr => hq r (by simp [hr]))]
    simp [List.reverse_append, hdq]

theorem bracket_not_space {c : Char} (h : isBracketC c = true) : isSpaceC c = false := by
  simp only [isBracketC, Bool.or_eq_true, beq_iff_eq] at h
  simp only [isSpaceC, Bool.or_eq_false_iff, beq_eq_false_iff_ne, ne_eq]
  omega

theorem not_space_of_not_sep {c : Char} (h : isSepC c = false) : isSpaceC c = false := by
  simp only [isSepC, Bool.or_eq_false_iff] at h
  exact h.2

/-- C3 (counterexample): the input holds two well-formed 32-hex tokens
separated by a comma, the second surrounded by brackets; the parser keeps only
the first token, because brackets are stripped at the ends of the whole string
only, so the interior `[` sticks to the second token and disqualifies it. -/
theorem c3_credentials_counterexample :
    isHex32 "aaaaaaaaaaaaaaaaaaaaaaaaaaaaaaaa".data = true ∧
    isHex32 "bbbbbbbbbbbbbbbbbbbbbbbbbbbbbbbb".data = true ∧
    parse_api_keys "aaaaaaaaaaaaaaaaaaaaaaaaaaaaaaaa,[bbbbbbbbbbbbbbbbbbbbbbbbbbbbbbbb]".data =
      ["aaaaaaaaaaaaaaaaaaaaaaaaaaaaaaaa".data] ∧
    parse_api_keys "aaaaaaaaaaaaaaaaaaaaaaaaaaaaaaaa,[bbbbbbbbbbbbbbbbbbbbbbbbbbbbbbbb]".data ≠
      ["aaaaaaaaaaaaaaaaaaaaaaaaaaaaaaaa".data, "bbbbbbbbbbbbbbbbbbbbbbbbbbbbbbbb".data] := by
  refine ⟨by decide, by decide, by decide, by decide⟩

/-- C3 (amended): for a credential string made of tokens separated by nonempty
comma/whitespace runs — brackets tolerated only around the whole string,
whitespace tolerated at its ends, and each token free of separators and
brackets — parsing yields, in order, exactly the lower-casings of those tokens
that are 32-hex after the per-token strip of whitespace, apostrophes and
double quotes, silently discarding the rest; and whenever parsing yields zero
valid tokens, startup fails (`SystemExit` at import time, before any network
request). -/
theorem c3_credentials_amended
    (ws1 br1 t0 : Str) (rest : List (Str × Str)) (br2 ws2 : Str)
    (hws1 : ∀ c ∈ ws1, isSpaceC c = true)
    (hbr1 : ∀ c ∈ br1, isBracketC c = true)
    (ht0ne : t0 ≠ [])
    (ht0 : ∀ c ∈ t0, isSepC c = false ∧ isBracketC c = false)
    (hrest : ∀ q ∈ rest, (q.1 ≠ [] ∧ ∀ c ∈ q.1, isSepC c = true) ∧
        (q.2 ≠ [] ∧ ∀ c ∈ q.2, isSepC c = false ∧ isBracketC c = false))
    (hbr2 : ∀ c ∈ br2, isBracketC c = true)
    (hws2 : ∀ c ∈ ws2, isSpaceC c = true) :
    parse_api_keys (ws1 ++ (br1 ++ joinDec t0 rest ++ br2) ++ ws2) =
      (t0 :: rest.map Prod.snd).filterMap (fun p =>
        if isHex32 (stripPart p) then some (toLowerStr (stripPart p)) else none) ∧
    (∀ v : Str, parse_api_keys v = [] → isOkE (loadApiKeys v) = false) := by
  constructor
  · obtain ⟨e, es, rfl⟩ : ∃ e es, t0 = e :: es := by
      cases hv : t0 with
      | nil => exact absurd hv ht0ne
      | cons e es => exact ⟨e, es, rfl⟩
    have hJne : joinDec (e :: es) rest ≠ [] := joinDec_ne_nil (by simp) rest
    have hne_mid : br1 ++ joinDec (e :: es) rest ++ br2 ≠ [] := by
      intro hcontra
      rw [List.append_eq_nil, List.append_eq_nil] at hcontra
      exact hJne hcontra.1.2
    have hne_all : ws1 ++ (br1 ++ joinDec (e :: es) rest ++ br2) ++ ws2 ≠ [] := by
      intro hcontra
      rw [List.append_eq_nil, List.append_eq_nil] at hcontra
      exact hne_mid hcontra.1.2
    have hrest2 : ∀ q ∈ rest, q.2 ≠ [] := fun q hr => (hrest q hr).2.1
    have hlastJ : ∀ c, (joinDec (e :: es) rest).getLast? = some c →
        isSepC c = false ∧ isBracketC c = false := by
      intro c hc
      rcases joinDec_getLast_mem rest (e :: es) (by simp) hrest2 c hc with
        hm | ⟨q, hqm, hcm⟩
      · exact ht0 c hm
      · exact (hrest q hqm).2.2 c hcm
    have hheadJ : ∀ c, (joinDec (e :: es) rest).head? = some c →
        isSepC c = false ∧ isBracketC c = false := by
      intro c hc
      rw [joinDec_head?] at hc
      obtain rfl := Option.some.inj hc
      exact ht0 e (by simp)
    have hhead_mid : ∀ c, (br1 ++ joinDec (e :: es) rest ++ br2).head? = some c →
        isSpaceC c = false := by
      intro c hc
      rw [List.append_assoc, List.head?_append] at hc
      cases br1 with
      | cons b bs =>
        simp only [List.head?_cons, Option.or_some] at hc
        obtain rfl := Option.some.inj hc
        exact bracket_not_space (hbr1 b (by simp))
      | nil =>
        simp only [List.head?_nil, Option.none_or, List.head?_append] at hc
        rw [joinDec_head?, Option.or_some] at hc
        obtain rfl := Option.some.inj hc
        exact not_space_of_not_sep (ht0 e (by simp)).1
    have hlast_mid : ∀ c, (br1 ++ joinDec (e :: es) rest ++ br2).getLast? = some c →
        isSpaceC c = false := by
      intro c hc
      rw [List.getLast?_append] at hc
      cases hg2 : br2.getLast? with
      | some d =>
        rw [hg2, Option.or_some] at hc
        obtain rfl := Option.some.inj hc
        obtain ⟨ys, hys⟩ := List.getLast?_eq_some_iff.mp hg2
        exact bracket_not_space (hbr2 d (by simp [hys]))
      | none =>
        rw [hg2, Option.none_or, List.getLast?_append] at hc
        cases hg3 : (joinDec (e :: es) rest).getLast? with
        | none => exact absurd (List.getLast?_eq_none_iff.mp hg3) hJne
        | some d =>
          rw [hg3, Option.or_some] at hc
          obtain rfl := Option.some.inj hc
          exact not_space_of_not_sep (hlastJ d hg3).1
    have hstrip1 : stripEnds isSpaceC (ws1 ++ (br1 ++ joinDec (e :: es) rest ++ br2) ++ ws2) =
        br1 ++ joinDec (e :: es) rest ++ br2 :=
      stripEnds_wrap hws1 hws2 hne_mid hhead_mid hlast_mid
    have hstrip2 : stripEnds isBracketC (br1 ++ joinDec (e :: es) rest ++ br2) =
        joinDec (e :: es) rest :=
      stripEnds_wrap hbr1 hbr2 hJne
        (fun c hc => (hheadJ c hc).2) (fun c hc => (hlastJ c hc).2)
    have hEmpty : (ws1 ++ (br1 ++ joinDec (e :: es) rest ++ br2) ++ ws2).isEmpty = false :=
      List.isEmpty_eq_false.mpr hne_all
    simp only [parse_api_keys, hEmpty, Bool.false_eq_true, if_false]
    rw [hstrip1, hstrip2]
    simp only [splitSep]
    rw [splitSepAux_joinDec rest (e :: es) [] (fun c hc => (ht0 c hc).1)
      (fun q hr => ⟨(hrest q hr).1, (hrest q hr).2.1,
        fun c hc => ((hrest q hr).2.2 c hc).1⟩)]
    simp
  · intro v hv
    simp [loadApiKeys, hv, isOkE]

/-- C3 (witness): the pool string `["<HEX1>", zz, <apostrophe><hex2><apostrophe>]`
with one malformed token `zz`; parsing keeps exactly the two hex tokens,
lower-casing the first. -/
theorem c3_credentials_amended_witness :
    parse_api_keys ([] ++ ("[".data ++
        joinDec "\"A1B2C3D4E5F6A7B8C9D0E1F2A3B4C5D6\"".data
          [(", ".data, "zz".data),
           (",".data, [Char.ofNat 39] ++ "a1b2c3d4e5f6a7b8c9d0e1f2a3b4c5d7".data ++ [Char.ofNat 39])] ++
        "]".data) ++ []) =
      ["a1b2c3d4e5f6a7b8c9d0e1f2a3b4c5d6".data,
       "a1b2c3d4e5f6a7b8c9d0e1f2a3b4c5d7".data] :=
  ((c3_credentials_amended [] "[".data _ _ "]".data []
      (by decide) (by decide) (by decide) (by decide) (by decide) (by decide)
      (by decide)).1).trans (by decide)

end Scopus
